import Mathlib

/-!
Shallow embedding of the presence-analyzer core
(`presence_analyzer/utils.py` and `presence_analyzer/views.py`):
CSV loading (`get_data`), weekday grouping, statistics
(`seconds_since_midnight`, `interval`, `mean`, `sum_timedelta`,
`sum_intervals`), the time-boxed result cache, the `lock` decorator,
and the report views.  Python numbers are modelled as `ℤ`/`ℚ`,
`datetime.date`/`datetime.time` as explicit structures, Python dicts as
association lists, and exceptions as `Except`/`Option`.
-/

namespace PresenceAnalyzer

/-! ### `datetime.time` and `datetime.date` -/

/-- `datetime.time`: wall-clock time of day (no microseconds are ever produced
by `%H:%M:%S` parsing in this program). -/
structure PyTime where
  hour : ℕ
  minute : ℕ
  second : ℕ
deriving DecidableEq, Repr

/-- `datetime.date`: a proleptic-Gregorian calendar date. -/
structure PyDate where
  year : ℕ
  month : ℕ
  day : ℕ
deriving DecidableEq, Repr

def isLeapYear (y : ℕ) : Bool :=
  y % 4 == 0 && (y % 100 != 0 || y % 400 == 0)

def daysInMonth (y m : ℕ) : ℕ :=
  if m = 2 then (if isLeapYear y then 29 else 28)
  else if m = 4 ∨ m = 6 ∨ m = 9 ∨ m = 11 then 30
  else 31

def daysBeforeYear (y : ℕ) : ℕ :=
  365 * (y - 1) + (y - 1) / 4 - (y - 1) / 100 + (y - 1) / 400

def daysBeforeMonth (y m : ℕ) : ℕ :=
  (List.range (m - 1)).foldl (fun acc i => acc + daysInMonth y (i + 1)) 0

/-- `datetime.date.toordinal`: day number with 0001-01-01 as day 1. -/
def PyDate.toOrdinal (d : PyDate) : ℕ :=
  daysBeforeYear d.year + daysBeforeMonth d.year d.month + d.day

/-- `datetime.date.weekday`: Monday = 0 … Sunday = 6. -/
def PyDate.weekday (d : PyDate) : ℕ :=
  (d.toOrdinal + 6) % 7

/-! ### Parsing: Python `int()` and `datetime.strptime` -/

def isSpaceChar (c : Char) : Bool :=
  c == ' ' || c == '\t' || c == '\n' || c == '\r'

def digitsVal (cs : List Char) : ℕ :=
  cs.foldl (fun a c => 10 * a + (c.toNat - 48)) 0

/-- A nonempty all-digit character group, as a number. -/
def parseNatDigits (cs : List Char) : Option ℕ :=
  if cs ≠ [] ∧ cs.all Char.isDigit then some (digitsVal cs) else none

/-- Python `int(s)` on a string: optional surrounding whitespace, optional
sign, decimal digits; `none` models the `ValueError` raised otherwise. -/
def pyInt (s : String) : Option ℤ :=
  let cs := ((s.data.dropWhile isSpaceChar).reverse.dropWhile isSpaceChar).reverse
  match cs with
  | '-' :: rest => (parseNatDigits rest).map (fun n => -(n : ℤ))
  | '+' :: rest => (parseNatDigits rest).map (fun n => (n : ℤ))
  | _ => (parseNatDigits cs).map (fun n => (n : ℤ))

def splitOnChar (sep : Char) : List Char → List (List Char)
  | [] => [[]]
  | c :: rest =>
    let r := splitOnChar sep rest
    if c = sep then [] :: r
    else
      match r with
      | [] => [[c]]
      | g :: gs => (c :: g) :: gs

/-- `datetime.strptime(s, "%Y-%m-%d").date()`: the year group is exactly 4
digits, month and day groups 1–2 digits, and the `date` constructor enforces
`1 ≤ year`, `1 ≤ month ≤ 12`, `1 ≤ day ≤ daysInMonth`;
`none` models the `ValueError` raised otherwise. -/
def strptimeDate (s : String) : Option PyDate :=
  match splitOnChar '-' s.data with
  | [ys, ms, ds] =>
    if ys.length = 4 ∧ 1 ≤ ms.length ∧ ms.length ≤ 2 ∧ 1 ≤ ds.length ∧ ds.length ≤ 2 then
      match parseNatDigits ys, parseNatDigits ms, parseNatDigits ds with
      | some y, some m, some d =>
        if 1 ≤ y ∧ 1 ≤ m ∧ m ≤ 12 ∧ 1 ≤ d ∧ d ≤ daysInMonth y m then
          some ⟨y, m, d⟩
        else none
      | _, _, _ => none
    else none
  | _ => none

/-- `datetime.strptime(s, "%H:%M:%S").time()`: three 1–2 digit groups with
hour ≤ 23, minute ≤ 59, second ≤ 59; `none` models `ValueError`. -/
def strptimeTime (s : String) : Option PyTime :=
  match splitOnChar ':' s.data with
  | [hs, ms, ss] =>
    if 1 ≤ hs.length ∧ hs.length ≤ 2 ∧ 1 ≤ ms.length ∧ ms.length ≤ 2 ∧
        1 ≤ ss.length ∧ ss.length ≤ 2 then
      match parseNatDigits hs, parseNatDigits ms, parseNatDigits ss with
      | some h, some m, some sec =>
        if h ≤ 23 ∧ m ≤ 59 ∧ sec ≤ 59 then some ⟨h, m, sec⟩ else none
      | _, _, _ => none
    else none
  | _ => none

/-! ### Statistics (`seconds_since_midnight`, `interval`, `mean`) -/

/-- `utils.seconds_since_midnight`. -/
def seconds_since_midnight (t : PyTime) : ℕ :=
  t.hour * 3600 + t.minute * 60 + t.second

/-- `utils.interval`: seconds between two times of day; may be negative. -/
def interval (start stop : PyTime) : ℤ :=
  (seconds_since_midnight stop : ℤ) - (seconds_since_midnight start : ℤ)

/-- `utils.mean`: `float(sum(items)) / len(items) if len(items) > 0 else 0`. -/
def mean (items : List ℚ) : ℚ :=
  if 0 < items.length then items.sum / (items.length : ℚ) else 0



/-! ### The presence table and the Loader (`get_data`) -/

/-- One value of the per-user per-date dict: `{'start': …, 'end': …}`
(`end` is a reserved word in Lean, hence the field name `end_`). -/
structure Entry where
  start : PyTime
  end_ : PyTime
deriving DecidableEq, Repr

/-- A user's `{date: {'start': …, 'end': …}}` dict, in insertion order. -/
abbrev UserTable := List (PyDate × Entry)

/-- The whole `data` dict: `user_id` (a Python `int`) to `UserTable`. -/
abbrev Table := List (ℤ × UserTable)

/-- Dict write `m[k] = v`: replaces the value of an existing key in place,
otherwise appends the new key (Python dicts preserve insertion order and
keep keys unique). -/
def updateAssoc [DecidableEq κ] (k : κ) (v : α) : List (κ × α) → List (κ × α)
  | [] => [(k, v)]
  | (k', v') :: rest =>
    if k' = k then (k, v) :: rest else (k', v') :: updateAssoc k v rest

/-- Dict read `m.get(k)`. -/
def lookupAssoc [DecidableEq κ] (k : κ) : List (κ × α) → Option α
  | [] => none
  | (k', v') :: rest => if k' = k then some v' else lookupAssoc k rest

/-- `data.setdefault(user_id, {})[date] = {'start': start, 'end': end}`. -/
def insertPresence (t : Table) (u : ℤ) (d : PyDate) (e : Entry) : Table :=
  updateAssoc u (updateAssoc d e ((lookupAssoc u t).getD [])) t

/-- The local variables of `get_data`'s loop body.  In Python they persist
across iterations; each is `none` until its first successful assignment
(`none` at the final write models `NameError`). -/
structure Locals where
  u : Option ℤ
  d : Option PyDate
  s : Option PyTime
  e : Option PyTime
deriving DecidableEq, Repr

/-- The `try:` block of `get_data`: the four assignments run in order and the
first failed parse aborts the block (`ValueError` caught by the bare
`except`), leaving the remaining variables at their previous values. -/
def tryParseRow (loc : Locals) (row : List String) : Locals :=
  match pyInt (row.getD 0 "") with
  | none => loc
  | some u =>
    let loc := { loc with u := some u }
    match strptimeDate (row.getD 1 "") with
    | none => loc
    | some d =>
      let loc := { loc with d := some d }
      match strptimeTime (row.getD 2 "") with
      | none => loc
      | some s =>
        let loc := { loc with s := some s }
        match strptimeTime (row.getD 3 "") with
        | none => loc
        | some e => { loc with e := some e }

/-- One iteration of `get_data`'s loop: skip rows without exactly 4 fields;
otherwise run the `try:` block and then — unconditionally, since the
`except` handler does not `continue` — execute
`data.setdefault(user_id, {})[date] = {'start': start, 'end': end}`,
which raises `NameError` if any of the four variables was never bound. -/
def get_dataStep (st : Table × Locals) (row : List String) :
    Except String (Table × Locals) :=
  if row.length ≠ 4 then .ok st
  else
    let loc := tryParseRow st.2 row
    match loc.u, loc.d, loc.s, loc.e with
    | some u, some d, some s, some e => .ok (insertPresence st.1 u d ⟨s, e⟩, loc)
    | _, _, _, _ => .error "NameError"

/-- `utils.get_data`, as a function of the CSV rows (each row the list of its
comma-separated fields).  An uncaught `NameError` is `.error`. -/
def get_data (rows : List (List String)) : Except String Table :=
  (rows.foldlM get_dataStep ([], ⟨none, none, none, none⟩)).map Prod.fst

/-! ### Weekday grouping -/

/-- In-place update of a list cell, `xs[i] = f(xs[i])` (out-of-range indices
leave the list unchanged; the groupers only ever use indices `< 7`). -/
def listUpdate : List α → ℕ → (α → α) → List α
  | [], _, _ => []
  | x :: xs, 0, f => f x :: xs
  | x :: xs, n + 1, f => x :: listUpdate xs n f

/-- The loop body of `group_by_weekday`:
`result[date.weekday()].append(interval(start, end))`. -/
def groupStep (result : List (List ℤ)) (p : PyDate × Entry) : List (List ℤ) :=
  listUpdate result p.1.weekday (· ++ [interval p.2.start p.2.end_])

/-- `utils.group_by_weekday`: seven buckets (Mon = 0 … Sun = 6) of interval
lengths, filled in iteration order of `items`. -/
def group_by_weekday (items : UserTable) : List (List ℤ) :=
  items.foldl groupStep [[], [], [], [], [], [], []]

/-- One `{'start': […], 'end': […]}` bucket. -/
structure StartEndBucket where
  start : List ℕ
  end_ : List ℕ
deriving DecidableEq, Repr

/-- The loop body of `group_start_end_by_weekday`: the two `append`
statements, one on the bucket's start list and one on its end list. -/
def groupStartEndStep (result : List StartEndBucket) (p : PyDate × Entry) :
    List StartEndBucket :=
  let result := listUpdate result p.1.weekday
    (fun b => { b with start := b.start ++ [seconds_since_midnight p.2.start] })
  listUpdate result p.1.weekday
    (fun b => { b with end_ := b.end_ ++ [seconds_since_midnight p.2.end_] })

/-- `utils.group_start_end_by_weekday`: seven buckets, each with independent
start and end lists of seconds-since-midnight. -/
def group_start_end_by_weekday (items : UserTable) : List StartEndBucket :=
  items.foldl groupStartEndStep (List.replicate 7 ⟨[], []⟩)

/-! ### `timedelta`, `sum_timedelta`, `sum_intervals` -/

/-- `datetime.timedelta`, represented by its exact total length in seconds.
The derived fields reproduce Python's normalisation: `days` may be negative,
`seconds` always lies in `[0, 86400)`. -/
structure Timedelta where
  total : ℚ
deriving DecidableEq, Repr

/-- `timedelta.days = ⌊total / 86400⌋` (Python floor division). -/
def Timedelta.days (td : Timedelta) : ℤ :=
  Rat.floor (td.total / 86400)

/-- `timedelta.seconds`: the whole seconds within the day, in `[0, 86400)`. -/
def Timedelta.seconds (td : Timedelta) : ℕ :=
  (Rat.floor (td.total - 86400 * (td.days : ℚ))).toNat

/-- The value of `float('{}.{}'.format(hours, minutes))` for `0 ≤ minutes ≤ 59`:
the minutes are concatenated after the decimal point (one digit if
`minutes < 10`, two otherwise), and a negative `hours` negates the whole
literal. -/
def formatHM (hours : ℤ) (minutes : ℕ) : ℚ :=
  let frac : ℚ := (minutes : ℚ) / (if minutes < 10 then 10 else 100)
  if hours < 0 then -((-hours : ℚ) + frac) else (hours : ℚ) + frac

/-- `utils.sum_timedelta`:
`hours, remainder = divmod(interval.seconds, 3600)`;
`minutes, _ = divmod(remainder, 60)`;
`hours = hours + interval.days * 24`;
`return float('{}.{}'.format(hours, minutes))`. -/
def sum_timedelta (td : Timedelta) : ℚ :=
  let hours := td.seconds / 3600
  let remainder := td.seconds % 3600
  let minutes := remainder / 60
  formatHM ((hours : ℤ) + td.days * 24) minutes

/-- `utils.sum_intervals`: sum the items (seconds) into a worked `timedelta`,
subtract from the fixed 168-hour week, and render both with
`sum_timedelta`. -/
def sum_intervals (items : List ℚ) : ℚ × ℚ :=
  let worked_interval : Timedelta := ⟨items.foldl (· + ·) 0⟩
  let whole_week : Timedelta := ⟨168 * 3600⟩
  let off_interval : Timedelta := ⟨whole_week.total - worked_interval.total⟩
  (sum_timedelta worked_interval, sum_timedelta off_interval)

/-! ### The result cache (`utils.cache`) -/

/-- One `CACHE[key]` value: `{'data': …, 'time': …}` (milliseconds). -/
structure CacheEntry (α : Type) where
  data : α
  time : ℤ
deriving DecidableEq, Repr

/-- One call of the function wrapped by `cache(duration)`, for a fixed key
(`sha1(function.__name__)` is constant per wrapped function), with the wall
clock and the cache slot passed explicitly.  The producer may raise
(`Except.error`); an uncaught exception leaves `CACHE` untouched because the
store happens only after `result = function(…)` returns.  The result pairs
what the call returns (or raises) with the cache slot afterwards. -/
def cacheCall (duration now : ℤ) (slot : Option (CacheEntry α))
    (producer : Except ε α) : Except ε α × Option (CacheEntry α) :=
  match slot with
  | some entry =>
    if now - entry.time < duration then (.ok entry.data, some entry)
    else
      match producer with
      | .error expt => (.error expt, some entry)
      | .ok result => (.ok result, some ⟨result, now⟩)
  | none =>
    match producer with
    | .error expt => (.error expt, none)
    | .ok result => (.ok result, some ⟨result, now⟩)

/-- The cache behaviour as the claim words it: the producer is re-invoked only
when the elapsed time strictly exceeds the duration (`>`), otherwise the
stored entry is returned unchanged.  Kept only to compare against
`cacheCall`, which the code defines with `<` on the cached branch
(i.e. re-invoke as soon as `elapsed ≥ duration`). -/
def cacheCallClaimC4 (duration now : ℤ) (slot : Option (CacheEntry α))
    (producer : Except ε α) : Except ε α × Option (CacheEntry α) :=
  match slot with
  | some entry =>
    if now - entry.time > duration then
      match producer with
      | .error expt => (.error expt, some entry)
      | .ok result => (.ok result, some ⟨result, now⟩)
    else (.ok entry.data, some entry)
  | none =>
    match producer with
    | .error expt => (.error expt, none)
    | .ok result => (.ok result, some ⟨result, now⟩)

/-! ### The `lock` decorator

`utils.lock` wraps the function body in `with threading.Lock():` — a **fresh**
lock object is allocated at every call, so two concurrent calls acquire two
different locks.  The model: two threads each run
`allocate fresh lock; acquire it; run producer; release`, with the fresh lock
of thread `i` named `i`.  A lock can be acquired only while no one holds it;
`inCS` is "inside the producer". -/

inductive LockPC where
  | start
  | inCS
  | done
deriving DecidableEq, Repr

/-- Global state of the two-caller interleaving: each thread's program
counter, and for each of the two freshly allocated locks whether it is
held. -/
structure LockState where
  pc0 : LockPC
  pc1 : LockPC
  held0 : Bool
  held1 : Bool
deriving DecidableEq, Repr

/-- Interleaving semantics of two concurrent calls of the `lock`-decorated
function: thread `i` acquires its own freshly created lock `i` (possible
whenever that lock is free) and enters the wrapped function, then leaves and
releases. -/
inductive lockStep : LockState → LockState → Prop
  | acquire0 (s : LockState) : s.pc0 = .start → s.held0 = false →
      lockStep s { s with pc0 := .inCS, held0 := true }
  | acquire1 (s : LockState) : s.pc1 = .start → s.held1 = false →
      lockStep s { s with pc1 := .inCS, held1 := true }
  | release0 (s : LockState) : s.pc0 = .inCS →
      lockStep s { s with pc0 := .done, held0 := false }
  | release1 (s : LockState) : s.pc1 = .inCS →
      lockStep s { s with pc1 := .done, held1 := false }

def lockInit : LockState := ⟨.start, .start, false, false⟩

/-- Reachability under the interleaving semantics. -/
def lockReachable : LockState → Prop :=
  Relation.ReflTransGen lockStep lockInit

/-! ### The views (`views.py`) -/

/-- `calendar.day_abbr` under the C locale (`LC_TIME` is never changed). -/
def day_abbr : List String :=
  ["Mon", "Tue", "Wed", "Thu", "Fri", "Sat", "Sun"]

/-- A view's JSON result: either the not-found payload
`{'message': …, 'status': …}` or the report payload. -/
inductive ViewOut (α : Type) where
  | notFound (message : String) (status : ℕ)
  | ok (payload : α)
deriving DecidableEq, Repr

/-- A heterogeneous JSON cell (Python rows mix strings and numbers). -/
inductive Cell where
  | str (s : String)
  | num (q : ℚ)
deriving DecidableEq, Repr

/-- `views.mean_time_weekday_view`, as a function of the loaded table. -/
def mean_time_weekday_view (data : Table) (user_id : ℤ) :
    ViewOut (List (String × ℚ)) :=
  match lookupAssoc user_id data with
  | none => .notFound ("User " ++ toString user_id ++ " not found!") 404
  | some items =>
    let weekdays := group_by_weekday items
    .ok (weekdays.enum.map fun p =>
      (day_abbr.getD p.1 "", mean (p.2.map fun i => ((i : ℤ) : ℚ))))

/-- `views.presence_weekday_view`: total presence per weekday with the
header row inserted at index 0. -/
def presence_weekday_view (data : Table) (user_id : ℤ) :
    ViewOut (List (Cell × Cell)) :=
  match lookupAssoc user_id data with
  | none => .notFound ("User " ++ toString user_id ++ " not found!") 404
  | some items =>
    let weekdays := group_by_weekday items
    .ok ((.str "Weekday", .str "Presence (s)") ::
      weekdays.enum.map fun p =>
        (Cell.str (day_abbr.getD p.1 ""), Cell.num ((p.2.sum : ℤ) : ℚ)))

/-- `views.presence_start_end_view`: mean start and mean end per weekday. -/
def presence_start_end_view (data : Table) (user_id : ℤ) :
    ViewOut (List (String × ℚ × ℚ)) :=
  match lookupAssoc user_id data with
  | none => .notFound ("User " ++ toString user_id ++ " not found!") 404
  | some items =>
    let weekdays := group_start_end_by_weekday items
    .ok (weekdays.enum.map fun p =>
      (day_abbr.getD p.1 "",
        mean (p.2.start.map fun i => ((i : ℕ) : ℚ)),
        mean (p.2.end_.map fun i => ((i : ℕ) : ℚ))))

/-- `views.weekly_mean_presence_view`: worked and off hours of the mean
week. -/
def weekly_mean_presence_view (data : Table) (user_id : ℤ) :
    ViewOut (List (Cell × Cell)) :=
  match lookupAssoc user_id data with
  | none => .notFound ("User " ++ toString user_id ++ " not found!") 404
  | some items =>
    let weekdays := group_by_weekday items
    let wo := sum_intervals (weekdays.map fun day => mean (day.map fun i => ((i : ℤ) : ℚ)))
    .ok [(.str "Activity", .str "Total hours"),
      (.str "Worked hours", .num wo.1),
      (.str "Off hours", .num wo.2)]

/-! ### Analysis helpers for the Loader -/

/-- The four parses of a 4-field row, all-or-nothing (the behaviour the spec
prescribes for a row; `get_data` itself keeps partial results in its loop
locals). -/
def parseRow4 (row : List String) : Option (ℤ × PyDate × PyTime × PyTime) :=
  match pyInt (row.getD 0 ""), strptimeDate (row.getD 1 ""),
      strptimeTime (row.getD 2 ""), strptimeTime (row.getD 3 "") with
  | some u, some d, some s, some e => some (u, d, s, e)
  | _, _, _, _ => none

/-- Every row with exactly 4 fields parses completely (rows with any other
field count — headers, footers — are allowed). -/
def wellFormedRows (rows : List (List String)) : Bool :=
  rows.all fun r => r.length ≠ 4 || (parseRow4 r).isSome

/-- One row's effect on the table when every 4-field row is well-formed:
insert a parsed row, skip everything else. -/
def loadStep (acc : Table) (r : List String) : Table :=
  if r.length = 4 then
    match parseRow4 r with
    | some (u, d, s, e) => insertPresence acc u d ⟨s, e⟩
    | none => acc
  else acc

/-- The Loader's effect on the table when every 4-field row is well-formed. -/
def loadPure (rows : List (List String)) (t : Table) : Table :=
  rows.foldl loadStep t

/-- Modelled from the spec: "a repeated date for the same user overwrites the
earlier one — last-row-wins, order = file order".  The `{start, end}` of the
last well-formed 4-field row of the file carrying the given key, if any. -/
def lastMatch (rows : List (List String)) (u : ℤ) (d : PyDate) : Option Entry :=
  match rows with
  | [] => none
  | r :: rest =>
    match lastMatch rest u d with
    | some e => some e
    | none =>
      if r.length = 4 then
        match parseRow4 r with
        | some (u', d', s, e) => if u' = u ∧ d' = d then some ⟨s, e⟩ else none
        | none => none
      else none

/-- No key occurs twice in an association list. -/
def nodupKeys [DecidableEq κ] : List (κ × α) → Bool
  | [] => true
  | (k, _) :: rest => (lookupAssoc k rest).isNone && nodupKeys rest

/-- Key uniqueness of the presence table, outer and inner. -/
def tableNodup (t : Table) : Bool :=
  nodupKeys t && t.all fun p => nodupKeys p.2

/-- The spec's displayed value: minutes (0–59) concatenated after the decimal
point of the hour count — one decimal digit below 10, two otherwise. -/
def hoursDotMinutes (hours minutes : ℕ) : ℚ :=
  (hours : ℚ) + (minutes : ℚ) / (if minutes < 10 then 10 else 100)

/-! ### Elementary facts about the `Timedelta` fields -/

theorem ratFloor_eq_intFloor (q : ℚ) : Rat.floor q = ⌊q⌋ := rfl

theorem Timedelta.days_natCast (n : ℕ) :
    (Timedelta.mk (n : ℚ)).days = (n / 86400 : ℕ) := by
  simp only [Timedelta.days, ratFloor_eq_intFloor]
  rw [show (86400 : ℚ) = ((86400 : ℕ) : ℚ) by norm_num, Rat.floor_natCast_div_natCast]
  exact_mod_cast rfl

theorem Timedelta.seconds_natCast (n : ℕ) :
    (Timedelta.mk (n : ℚ)).seconds = n % 86400 := by
  have hd := Timedelta.days_natCast n
  simp only [Timedelta.seconds]
  rw [hd, ratFloor_eq_intFloor, Int.cast_natCast]
  have h : ((n % 86400 : ℕ) : ℚ) = (n : ℚ) - 86400 * ((n / 86400 : ℕ) : ℚ) := by
    have h0 := congrArg (Nat.cast : ℕ → ℚ) (Nat.mod_add_div n 86400)
    push_cast at h0
    linarith
  rw [← h, Int.floor_natCast, Int.toNat_natCast]

/-- Evaluation of `sum_timedelta` on a whole number of seconds: the quantities
of the displayed-decimal scheme fall out of the day/second normalisation. -/
theorem sum_timedelta_natCast (n : ℕ) :
    sum_timedelta ⟨(n : ℚ)⟩ =
      formatHM ((n % 86400 / 3600 : ℕ) + (n / 86400 : ℕ) * 24) (n % 86400 % 3600 / 60) := by
  unfold sum_timedelta
  rw [Timedelta.seconds_natCast, Timedelta.days_natCast]

/-! ### Association-list lemmas -/

theorem lookupAssoc_updateAssoc_self [DecidableEq κ] (k : κ) (v : α)
    (l : List (κ × α)) : lookupAssoc k (updateAssoc k v l) = some v := by
  induction l with
  | nil => simp [updateAssoc, lookupAssoc]
  | cons p rest ih =>
    obtain ⟨k', v'⟩ := p
    by_cases hk : k' = k
    · simp [updateAssoc, lookupAssoc, hk]
    · simp [updateAssoc, lookupAssoc, hk, ih]

theorem lookupAssoc_updateAssoc_ne [DecidableEq κ] (k k' : κ) (v : α)
    (l : List (κ × α)) (h : k ≠ k') :
    lookupAssoc k' (updateAssoc k v l) = lookupAssoc k' l := by
  induction l with
  | nil => simp [updateAssoc, lookupAssoc, h]
  | cons p rest ih =>
    obtain ⟨k₀, v₀⟩ := p
    by_cases hk : k₀ = k
    · subst hk
      simp [updateAssoc, lookupAssoc, h]
    · simp only [updateAssoc, if_neg hk]
      by_cases hk' : k₀ = k'
      · simp [lookupAssoc, hk']
      · simp [lookupAssoc, hk', ih]

/-! ### C6 — `mean` on empty and non-empty sequences -/

/-- C6: `mean` applied to an empty sequence returns exactly `0`, while for
every non-empty sequence it returns the arithmetic mean of its elements
(stated multiplicatively: `mean items · length = sum`). -/
theorem mean_empty_zero_and_mean_nonempty :
    mean [] = 0 ∧
      ∀ items : List ℚ, items ≠ [] → mean items * (items.length : ℚ) = items.sum := by
  constructor
  · rfl
  · intro items hne
    have hpos : 0 < items.length := List.length_pos.mpr hne
    have hq : (items.length : ℚ) ≠ 0 := by
      exact_mod_cast Nat.pos_iff_ne_zero.mp hpos
    simp only [mean, if_pos hpos]
    field_simp

/-- Witness for C6 at the empty list and at `[3, 4]`. -/
theorem mean_empty_zero_and_mean_nonempty_witness :
    mean [] = 0 ∧
      mean [3, 4] * (([3, 4] : List ℚ).length : ℚ) = ([3, 4] : List ℚ).sum :=
  ⟨mean_empty_zero_and_mean_nonempty.1,
    mean_empty_zero_and_mean_nonempty.2 [3, 4] (by simp)⟩

/-! ### C5 — absent user gives the not-found payload in every view -/

/-- C5: for every `user_id` absent from the loaded table, each of the four
report views returns the `{'status': 404, 'message': 'User <id> not found!'}`
payload rather than a report, and that outcome is distinct from every report
payload. -/
theorem views_absent_user_not_found (data : Table) (user_id : ℤ)
    (h : lookupAssoc user_id data = none) :
    mean_time_weekday_view data user_id
        = .notFound ("User " ++ toString user_id ++ " not found!") 404
    ∧ presence_weekday_view data user_id
        = .notFound ("User " ++ toString user_id ++ " not found!") 404
    ∧ presence_start_end_view data user_id
        = .notFound ("User " ++ toString user_id ++ " not found!") 404
    ∧ weekly_mean_presence_view data user_id
        = .notFound ("User " ++ toString user_id ++ " not found!") 404
    ∧ ∀ payload, ViewOut.notFound (α := List (String × ℚ))
        ("User " ++ toString user_id ++ " not found!") 404 ≠ .ok payload := by
  refine ⟨?_, ?_, ?_, ?_, fun p hp => ViewOut.noConfusion hp⟩
  · simp [mean_time_weekday_view, h]
  · simp [presence_weekday_view, h]
  · simp [presence_start_end_view, h]
  · simp [weekly_mean_presence_view, h]

/-- Witness for C5: the empty table and user 1. -/
theorem views_absent_user_not_found_witness :
    mean_time_weekday_view [] 1
        = .notFound ("User " ++ toString (1 : ℤ) ++ " not found!") 404
    ∧ presence_weekday_view [] 1
        = .notFound ("User " ++ toString (1 : ℤ) ++ " not found!") 404
    ∧ presence_start_end_view [] 1
        = .notFound ("User " ++ toString (1 : ℤ) ++ " not found!") 404
    ∧ weekly_mean_presence_view [] 1
        = .notFound ("User " ++ toString (1 : ℤ) ++ " not found!") 404 := by
  have h := views_absent_user_not_found [] 1 rfl
  exact ⟨h.1, h.2.1, h.2.2.1, h.2.2.2.1⟩

/-! ### C2 — the `lock` decorator does not provide mutual exclusion -/

/-- C2 (refuting): because `utils.lock` allocates a fresh `threading.Lock()`
at every call, the state in which both concurrent callers are
simultaneously inside the wrapped producer, each holding its own fresh
lock, is reachable. -/
theorem lock_not_mutually_exclusive :
    lockReachable ⟨.inCS, .inCS, true, true⟩ := by
  have h1 : lockStep lockInit ⟨.inCS, .start, true, false⟩ :=
    lockStep.acquire0 lockInit rfl rfl
  have h2 : lockStep ⟨.inCS, .start, true, false⟩ ⟨.inCS, .inCS, true, true⟩ :=
    lockStep.acquire1 _ rfl rfl
  exact Relation.ReflTransGen.head h1 (Relation.ReflTransGen.single h2)

/-! ### C4 — cache behaviour -/

/-- C4 (counterexample to the claim as stated): at the staleness boundary
`elapsed = duration` the code re-invokes the producer and stores a fresh
timestamp, whereas the claim's "exceeds" (strictly) would return the stored
entry unchanged. -/
theorem cache_boundary_counterexample :
    cacheCall 600 600 (some ⟨(0 : ℤ), 0⟩) (Except.ok (ε := Unit) 1)
      ≠ cacheCallClaimC4 600 600 (some ⟨(0 : ℤ), 0⟩) (Except.ok (ε := Unit) 1) := by
  have h1 : cacheCall 600 600 (some ⟨(0 : ℤ), 0⟩) (Except.ok (ε := Unit) 1)
      = (.ok 1, some ⟨1, 600⟩) := rfl
  have h2 : cacheCallClaimC4 600 600 (some ⟨(0 : ℤ), 0⟩) (Except.ok (ε := Unit) 1)
      = (.ok 0, some ⟨0, 0⟩) := rfl
  rw [h1, h2]
  simp

/-- C4 (amended: the producer is re-invoked as soon as the elapsed time is at
least the duration, `≥` rather than strictly `>`): first call stores and
returns fresh data; a stale entry is replaced by fresh data with timestamp
`now`; an entry within the window is returned with data and timestamp
unchanged; hence a second sequential call within the window returns identical
data and an unchanged timestamp, and a call at or after the window's end gets
a new timestamp even when the producer returns the same data. -/
theorem cache_first_stale_fresh {α ε : Type} (d now now2 : ℤ) (p q : α)
    (entry : CacheEntry α) :
    (cacheCall d now none (Except.ok (ε := ε) p) = (.ok p, some ⟨p, now⟩))
    ∧ (d ≤ now - entry.time →
        cacheCall d now (some entry) (Except.ok (ε := ε) p) = (.ok p, some ⟨p, now⟩))
    ∧ (now - entry.time < d →
        cacheCall d now (some entry) (Except.ok (ε := ε) p)
          = (.ok entry.data, some entry))
    ∧ (now2 - now < d →
        cacheCall d now2 (some ⟨p, now⟩) (Except.ok (ε := ε) q) = (.ok p, some ⟨p, now⟩))
    ∧ (d ≤ now2 - now →
        cacheCall d now2 (some ⟨p, now⟩) (Except.ok (ε := ε) p) = (.ok p, some ⟨p, now2⟩)) := by
  refine ⟨rfl, ?_, ?_, ?_, ?_⟩
  · intro h
    simp [cacheCall, not_lt.mpr h]
  · intro h
    simp [cacheCall, h]
  · intro h
    simp [cacheCall, h]
  · intro h
    simp [cacheCall, not_lt.mpr h]

/-- Witness for C4 (amended) with duration 600 ms: a fresh first call, a hit
inside the window, and a reload at the boundary. -/
theorem cache_first_stale_fresh_witness :
    (cacheCall 600 1000 none (Except.ok (ε := Unit) (5 : ℤ)) = (.ok 5, some ⟨5, 1000⟩))
    ∧ (cacheCall 600 1100 (some ⟨(5 : ℤ), 1000⟩) (Except.ok (ε := Unit) (7 : ℤ))
        = (.ok 5, some ⟨5, 1000⟩))
    ∧ (cacheCall 600 1600 (some ⟨(5 : ℤ), 1000⟩) (Except.ok (ε := Unit) (5 : ℤ))
        = (.ok 5, some ⟨5, 1600⟩)) :=
  ⟨(cache_first_stale_fresh 600 1000 1000 (5 : ℤ) 5 ⟨5, 1000⟩).1,
    (cache_first_stale_fresh 600 1000 1100 (5 : ℤ) 7 ⟨5, 1000⟩).2.2.2.1 (by norm_num),
    (cache_first_stale_fresh 600 1000 1600 (5 : ℤ) 5 ⟨5, 1000⟩).2.2.2.2 (by norm_num)⟩

/-! ### C9 — a raising producer leaves the cache untouched -/

/-- C9: if the wrapped producer raises, the cache slot after the call is
exactly the slot before it (no entry created or overwritten), and the
exception propagates to the caller whenever the producer actually ran
(first call, or stale entry). -/
theorem cache_error_leaves_cache_unchanged {α ε : Type} (d now : ℤ)
    (slot : Option (CacheEntry α)) (err : ε) :
    ((cacheCall d now slot (Except.error err)).2 = slot)
    ∧ (slot = none → cacheCall d now slot (Except.error err) = (.error err, none))
    ∧ (∀ entry, slot = some entry → d ≤ now - entry.time →
        cacheCall d now slot (Except.error err) = (.error err, some entry)) := by
  refine ⟨?_, ?_, ?_⟩
  · match slot with
    | none => rfl
    | some entry =>
      by_cases h : now - entry.time < d
      · simp [cacheCall, h]
      · simp [cacheCall, h]
  · rintro rfl
    rfl
  · rintro entry rfl h
    simp [cacheCall, not_lt.mpr h]

/-- Witness for C9: an empty slot and a stale entry, producer raising. -/
theorem cache_error_leaves_cache_unchanged_witness :
    ((cacheCall 600 1000 (none : Option (CacheEntry ℤ)) (Except.error "boom")).2 = none)
    ∧ (cacheCall 600 1000 (none : Option (CacheEntry ℤ)) (Except.error "boom")
        = (.error "boom", none))
    ∧ (cacheCall 600 1700 (some ⟨(5 : ℤ), 1000⟩) (Except.error "boom")
        = (.error "boom", some ⟨5, 1000⟩)) :=
  ⟨(cache_error_leaves_cache_unchanged 600 1000 none "boom").1,
    (cache_error_leaves_cache_unchanged 600 1000 none "boom").2.1 rfl,
    (cache_error_leaves_cache_unchanged 600 1700 (some ⟨(5 : ℤ), 1000⟩) "boom").2.2
      ⟨5, 1000⟩ rfl (by norm_num)⟩

/-! ### C10 — `group_start_end_by_weekday` invariants -/

theorem listUpdate_length (l : List α) (i : ℕ) (f : α → α) :
    (listUpdate l i f).length = l.length := by
  induction l generalizing i with
  | nil => rfl
  | cons x xs ih =>
    match i with
    | 0 => rfl
    | n + 1 => simp [listUpdate, ih]

theorem listUpdate_forall {P : α → Prop} (l : List α) (i : ℕ) (f : α → α)
    (hl : ∀ b ∈ l, P b) (hf : ∀ b, P b → P (f b)) :
    ∀ b ∈ listUpdate l i f, P b := by
  induction l generalizing i with
  | nil => simp [listUpdate]
  | cons x xs ih =>
    match i with
    | 0 =>
      intro b hb
      simp only [listUpdate, List.mem_cons] at hb
      rcases hb with rfl | hb
      · exact hf x (hl x (by simp))
      · exact hl b (List.mem_cons_of_mem x hb)
    | n + 1 =>
      intro b hb
      simp only [listUpdate, List.mem_cons] at hb
      rcases hb with rfl | hb
      · exact hl b (by simp)
      · exact ih n (fun c hc => hl c (List.mem_cons_of_mem x hc)) b hb

theorem listUpdate_listUpdate_same (l : List α) (i : ℕ) (f g : α → α) :
    listUpdate (listUpdate l i f) i g = listUpdate l i (fun x => g (f x)) := by
  induction l generalizing i with
  | nil => rfl
  | cons x xs ih =>
    match i with
    | 0 => rfl
    | n + 1 => simp [listUpdate, ih]

theorem foldl_preserve {P : β → Prop} (step : β → α → β)
    (hstep : ∀ b a, P b → P (step b a)) :
    ∀ (l : List α) (init : β), P init → P (l.foldl step init) := by
  intro l
  induction l with
  | nil => exact fun init h => h
  | cons x xs ih => exact fun init h => ih (step init x) (hstep init x h)

/-- C10: for every input mapping, `group_start_end_by_weekday` returns exactly
7 buckets, and in each bucket the start list and the end list have equal
length (one start and one end appended per date). -/
theorem group_start_end_seven_balanced (items : UserTable) :
    (group_start_end_by_weekday items).length = 7
    ∧ ((group_start_end_by_weekday items).all
        fun b => b.start.length == b.end_.length) = true := by
  have hstep : ∀ (result : List StartEndBucket) (p : PyDate × Entry),
      (result.length = 7 ∧ ∀ b ∈ result, b.start.length = b.end_.length) →
      ((groupStartEndStep result p).length = 7
        ∧ ∀ b ∈ groupStartEndStep result p, b.start.length = b.end_.length) := by
    intro result p hP
    obtain ⟨hlen, hbal⟩ := hP
    unfold groupStartEndStep
    rw [listUpdate_listUpdate_same]
    constructor
    · rw [listUpdate_length, hlen]
    · refine listUpdate_forall result _ _ hbal ?_
      intro b hb
      simp [hb]
  have h := foldl_preserve groupStartEndStep hstep items (List.replicate 7 ⟨[], []⟩)
    ⟨by simp, by
      intro b hb
      have hb' : b = ⟨[], []⟩ := List.eq_of_mem_replicate hb
      simp [hb']⟩
  refine ⟨h.1, ?_⟩
  rw [List.all_eq_true]
  intro b hb
  exact beq_iff_eq.mpr (h.2 b hb)

/-! ### C3 — the displayed-decimal conversion scheme -/

theorem formatHM_natCast (h m : ℕ) : formatHM (h : ℤ) m = hoursDotMinutes h m := by
  simp only [formatHM, hoursDotMinutes, if_neg (not_lt.mpr (Int.natCast_nonneg h))]
  push_cast
  ring

/-- Floor of a rational divided by a positive natural, as integer division of
its floor. -/
theorem floor_div_natCast (q : ℚ) (n : ℕ) (hn : 0 < (n : ℤ)) :
    ⌊q / (n : ℚ)⌋ = ⌊q⌋ / (n : ℤ) := by
  have key : ∀ z : ℤ, z ≤ ⌊q / (n : ℚ)⌋ ↔ z ≤ ⌊q⌋ / (n : ℤ) := by
    intro z
    have hnq : (0 : ℚ) < (n : ℚ) := by exact_mod_cast hn
    rw [Int.le_floor, le_div_iff₀ hnq, Int.le_ediv_iff_mul_le hn, Int.le_floor]
    push_cast
    exact Iff.rfl
  exact le_antisymm ((key _).mp le_rfl) ((key _).mpr le_rfl)

/-- `timedelta.days` in terms of the floor of the total. -/
theorem Timedelta.days_floor (r : ℚ) : Timedelta.days ⟨r⟩ = ⌊r⌋ / 86400 := by
  simp only [Timedelta.days, ratFloor_eq_intFloor]
  rw [show (86400 : ℚ) = ((86400 : ℕ) : ℚ) by norm_num]
  rw [floor_div_natCast r 86400 (by norm_num)]
  norm_num

/-- `timedelta.seconds` in terms of the floor of the total. -/
theorem Timedelta.seconds_floor (r : ℚ) :
    Timedelta.seconds ⟨r⟩ = (⌊r⌋ - 86400 * Timedelta.days ⟨r⟩).toNat := by
  simp only [Timedelta.seconds, ratFloor_eq_intFloor]
  rw [show (86400 : ℚ) * ((Timedelta.days ⟨r⟩ : ℤ) : ℚ)
      = ((86400 * Timedelta.days ⟨r⟩ : ℤ) : ℚ) by push_cast; ring]
  rw [Int.floor_sub_int]

/-- Sub-second parts of a duration never affect its display: `sum_timedelta`
only ever reads the whole-second normalisation. -/
theorem sum_timedelta_truncates (q : ℚ) :
    sum_timedelta ⟨q⟩ = sum_timedelta ⟨(⌊q⌋ : ℚ)⟩ := by
  unfold sum_timedelta
  rw [Timedelta.seconds_floor, Timedelta.seconds_floor, Timedelta.days_floor,
    Timedelta.days_floor, Int.floor_intCast]

theorem foldl_add_natCast (items : List ℕ) :
    (items.map fun i => ((i : ℕ) : ℚ)).foldl (· + ·) 0 = ((items.sum : ℕ) : ℚ) := by
  suffices general : ∀ (l : List ℕ) (acc : ℚ),
      (l.map fun i => ((i : ℕ) : ℚ)).foldl (· + ·) acc = acc + ((l.sum : ℕ) : ℚ) by
    simpa using general items 0
  intro l
  induction l with
  | nil => intro acc; simp
  | cons x xs ih =>
    intro acc
    rw [List.map_cons, List.foldl_cons, ih, List.sum_cons, Nat.cast_add]
    ring

/-- C3: for every nonnegative whole-second total the displayed value is
`hours.minutes` with `hours = floor(withinDaySeconds/3600) + 24*days` and
`minutes = floor(remainder/60)` concatenated after the decimal point (and
sub-second parts never change the display); `sum_intervals` feeds both its
worked total and the 168-hour complement through this scheme; 1 hour
45 minutes renders as 1.45, not 1.75. -/
theorem sum_conversion_scheme :
    (∀ q : ℚ, sum_timedelta ⟨q⟩ = sum_timedelta ⟨(⌊q⌋ : ℚ)⟩)
    ∧ (∀ n : ℕ, sum_timedelta ⟨(n : ℚ)⟩
        = hoursDotMinutes (n % 86400 / 3600 + 24 * (n / 86400)) (n % 86400 % 3600 / 60))
    ∧ (∀ items : List ℕ, sum_intervals (items.map fun i => ((i : ℕ) : ℚ))
        = (sum_timedelta ⟨((items.sum : ℕ) : ℚ)⟩,
          sum_timedelta ⟨168 * 3600 - ((items.sum : ℕ) : ℚ)⟩))
    ∧ sum_timedelta ⟨(6300 : ℚ)⟩ = 145 / 100
    ∧ (145 / 100 : ℚ) ≠ 7 / 4 := by
  have part2 : ∀ n : ℕ, sum_timedelta ⟨(n : ℚ)⟩
      = hoursDotMinutes (n % 86400 / 3600 + 24 * (n / 86400)) (n % 86400 % 3600 / 60) := by
    intro n
    rw [sum_timedelta_natCast]
    rw [show ((n % 86400 / 3600 : ℕ) : ℤ) + ((n / 86400 : ℕ) : ℤ) * 24
        = ((n % 86400 / 3600 + 24 * (n / 86400) : ℕ) : ℤ) by push_cast; ring]
    exact formatHM_natCast _ _
  refine ⟨sum_timedelta_truncates, part2, ?_, ?_, by norm_num⟩
  · intro items
    simp only [sum_intervals, foldl_add_natCast]
  · rw [show (6300 : ℚ) = ((6300 : ℕ) : ℚ) by norm_num, part2]
    norm_num [hoursDotMinutes]

/-! ### C8 — tenfold-minutes display ambiguity -/

theorem formatHM_tenfold (h : ℤ) (m : ℕ) (h1 : 1 ≤ m) (h5 : m ≤ 5) :
    formatHM h m = formatHM h (10 * m) := by
  have hfrac : ((m : ℕ) : ℚ) / 10 = ((10 * m : ℕ) : ℚ) / 100 := by
    push_cast
    ring
  by_cases hh : h < 0
  · simp only [formatHM, if_pos hh, if_pos (show m < 10 by omega),
      if_neg (show ¬(10 * m < 10) by omega)]
    rw [hfrac]
  · simp only [formatHM, if_neg hh, if_pos (show m < 10 by omega),
      if_neg (show ¬(10 * m < 10) by omega)]
    rw [hfrac]

theorem sum_timedelta_hm (h m : ℕ) (hm : m < 60) :
    sum_timedelta ⟨((h * 3600 + m * 60 : ℕ) : ℚ)⟩ = formatHM (h : ℤ) m := by
  rw [sum_timedelta_natCast]
  congr 1
  · omega
  · omega

/-- C8 (counterexample to "for every duration with a minutes component below
10"): 1 hour 6 minutes displays as 1.6, but the duration with tenfold minutes
— 1 hour 60 minutes, i.e. 2 hours — displays as 2.0, not the same value. -/
theorem tenfold_minutes_counterexample :
    sum_timedelta ⟨(3960 : ℚ)⟩ = 16 / 10
    ∧ sum_timedelta ⟨(7200 : ℚ)⟩ = 2
    ∧ sum_timedelta ⟨(3960 : ℚ)⟩ ≠ sum_timedelta ⟨(7200 : ℚ)⟩ := by
  have h1 : sum_timedelta ⟨(3960 : ℚ)⟩ = 16 / 10 := by
    rw [show (3960 : ℚ) = ((3960 : ℕ) : ℚ) by norm_num, sum_timedelta_natCast]
    norm_num [formatHM]
  have h2 : sum_timedelta ⟨(7200 : ℚ)⟩ = 2 := by
    rw [show (7200 : ℚ) = ((7200 : ℕ) : ℚ) by norm_num, sum_timedelta_natCast]
    norm_num [formatHM]
  refine ⟨h1, h2, ?_⟩
  rw [h1, h2]
  norm_num

/-- C8 (amended: minutes component 1–5, so that its tenfold is still a valid
minutes component): the two durations differ but display identically —
e.g. 1 hour 5 minutes and 1 hour 50 minutes both render as 1.5. -/
theorem tenfold_minutes_ambiguous (h m : ℕ) (h1 : 1 ≤ m) (h5 : m ≤ 5) :
    (h * 3600 + m * 60 : ℕ) ≠ h * 3600 + 10 * m * 60
    ∧ sum_timedelta ⟨((h * 3600 + m * 60 : ℕ) : ℚ)⟩
        = sum_timedelta ⟨((h * 3600 + 10 * m * 60 : ℕ) : ℚ)⟩ := by
  constructor
  · omega
  · rw [sum_timedelta_hm h m (by omega)]
    rw [show (h * 3600 + 10 * m * 60 : ℕ) = h * 3600 + (10 * m) * 60 by ring]
    rw [sum_timedelta_hm h (10 * m) (by omega)]
    exact formatHM_tenfold (h : ℤ) m h1 h5

/-- Witness for C8 (amended) at 1 hour 5 minutes versus 1 hour 50 minutes. -/
theorem tenfold_minutes_ambiguous_witness :
    ((1 * 3600 + 5 * 60 : ℕ) ≠ 1 * 3600 + 10 * 5 * 60)
    ∧ sum_timedelta ⟨((1 * 3600 + 5 * 60 : ℕ) : ℚ)⟩
        = sum_timedelta ⟨((1 * 3600 + 10 * 5 * 60 : ℕ) : ℚ)⟩ :=
  tenfold_minutes_ambiguous 1 5 (by norm_num) (by norm_num)

/-! ### C1 — malformed 4-field rows are *not* skipped cleanly -/

/-- C1 (code bug, evaluation): the `except` handler of `get_data` logs but
does not `continue`, and the table write sits outside the `try`.  When the
first 4-field row is malformed, the write reads never-assigned locals and the
whole load raises `NameError`; when a later row's date fails to parse after
its `user_id` was assigned, the write mixes the malformed row's `user_id`
with the previous row's date and times, creating an entry derived from the
malformed row. -/
theorem get_data_malformed_rows_misbehave :
    get_data [["foo", "2013-01-01", "09:00:00", "17:00:00"]] = .error "NameError"
    ∧ get_data [["10", "2013-01-01", "08:00:00", "16:00:00"],
        ["11", "bad-date", "x", "y"]]
      = .ok [(10, [(⟨2013, 1, 1⟩, ⟨⟨8, 0, 0⟩, ⟨16, 0, 0⟩⟩)]),
        (11, [(⟨2013, 1, 1⟩, ⟨⟨8, 0, 0⟩, ⟨16, 0, 0⟩⟩)])]
    ∧ lookupAssoc (11 : ℤ)
        [((10 : ℤ), [((⟨2013, 1, 1⟩ : PyDate), (⟨⟨8, 0, 0⟩, ⟨16, 0, 0⟩⟩ : Entry))]),
          (11, [(⟨2013, 1, 1⟩, ⟨⟨8, 0, 0⟩, ⟨16, 0, 0⟩⟩)])] ≠ none := by
  refine ⟨rfl, rfl, ?_⟩
  simp [lookupAssoc]

/-! ### C7 — last-row-wins -/

/-- C7 (counterexample to the claim over arbitrary files): rows 1 and 2 are
well-formed and share the key (10, 2013-01-01); the last such row carries
08:00:00–16:00:00.  But the malformed fourth row re-parses `user_id` and
`date` successfully, fails on `start`, and the unconditional write then
clobbers the key with the stale times of row 3 — the final entry is not that
of the last well-formed row with the key. -/
theorem last_row_wins_counterexample :
    get_data [["10", "2013-01-01", "07:00:00", "15:00:00"],
        ["10", "2013-01-01", "08:00:00", "16:00:00"],
        ["10", "2013-01-02", "09:00:00", "17:00:00"],
        ["10", "2013-01-01", "bad", "17:30:00"]]
      = .ok [(10, [(⟨2013, 1, 1⟩, ⟨⟨9, 0, 0⟩, ⟨17, 0, 0⟩⟩),
          (⟨2013, 1, 2⟩, ⟨⟨9, 0, 0⟩, ⟨17, 0, 0⟩⟩)])]
    ∧ lastMatch [["10", "2013-01-01", "07:00:00", "15:00:00"],
        ["10", "2013-01-01", "08:00:00", "16:00:00"],
        ["10", "2013-01-02", "09:00:00", "17:00:00"],
        ["10", "2013-01-01", "bad", "17:30:00"]] 10 ⟨2013, 1, 1⟩
      = some ⟨⟨8, 0, 0⟩, ⟨16, 0, 0⟩⟩
    ∧ (Entry.mk ⟨9, 0, 0⟩ ⟨17, 0, 0⟩ ≠ Entry.mk ⟨8, 0, 0⟩ ⟨16, 0, 0⟩) := by
  refine ⟨rfl, rfl, by decide⟩

theorem lookupAssoc_getD_bind [DecidableEq κ] [DecidableEq κ'] (u : κ) (d : κ')
    (t : List (κ × List (κ' × α))) :
    lookupAssoc d ((lookupAssoc u t).getD []) = (lookupAssoc u t).bind (lookupAssoc d) := by
  cases h : lookupAssoc u t with
  | none => simp [lookupAssoc]
  | some inner => simp

theorem insertPresence_lookup (t : Table) (u' : ℤ) (d' : PyDate) (e' : Entry)
    (u : ℤ) (d : PyDate) :
    (lookupAssoc u (insertPresence t u' d' e')).bind (lookupAssoc d)
      = if u' = u ∧ d' = d then some e'
        else (lookupAssoc u t).bind (lookupAssoc d) := by
  unfold insertPresence
  by_cases hu : u' = u
  · subst hu
    rw [lookupAssoc_updateAssoc_self]
    by_cases hd : d' = d
    · subst hd
      simp [lookupAssoc_updateAssoc_self]
    · rw [if_neg (by simp [hd])]
      simp only [Option.some_bind]
      rw [lookupAssoc_updateAssoc_ne _ _ _ _ hd]
      exact lookupAssoc_getD_bind u' d t
  · rw [lookupAssoc_updateAssoc_ne _ _ _ _ hu, if_neg (by simp [hu])]

theorem loadPure_lookup (rows : List (List String)) (t : Table) (u : ℤ) (d : PyDate) :
    (lookupAssoc u (loadPure rows t)).bind (lookupAssoc d)
      = match lastMatch rows u d with
        | some e => some e
        | none => (lookupAssoc u t).bind (lookupAssoc d) := by
  induction rows generalizing t with
  | nil => simp [loadPure, lastMatch]
  | cons r rest ih =>
    rw [show loadPure (r :: rest) t = loadPure rest (loadStep t r) from rfl, ih]
    cases hrest : lastMatch rest u d with
    | some e => simp [lastMatch, hrest]
    | none =>
      by_cases hlen : r.length = 4
      · cases hp : parseRow4 r with
        | none =>
          rw [show loadStep t r = t from by simp [loadStep, hlen, hp]]
          simp [lastMatch, hrest, hlen, hp]
        | some quad =>
          obtain ⟨u', d', s, e⟩ := quad
          rw [show loadStep t r = insertPresence t u' d' ⟨s, e⟩ from by
            simp [loadStep, hlen, hp]]
          rw [insertPresence_lookup]
          by_cases hmatch : u' = u ∧ d' = d
          · simp [lastMatch, hrest, hlen, hp, hmatch]
          · simp [lastMatch, hrest, hlen, hp, hmatch]
      · rw [show loadStep t r = t from by simp [loadStep, hlen]]
        simp [lastMatch, hrest, hlen]

theorem get_dataStep_parsed (t : Table) (loc : Locals) (r : List String)
    (hlen : r.length = 4) (u' : ℤ) (d' : PyDate) (s e : PyTime)
    (hp : parseRow4 r = some (u', d', s, e)) :
    get_dataStep (t, loc) r
      = .ok (insertPresence t u' d' ⟨s, e⟩, ⟨some u', some d', some s, some e⟩) := by
  unfold parseRow4 at hp
  cases h0 : pyInt (r.getD 0 "") with
  | none => rw [h0] at hp; simp at hp
  | some u0 =>
    cases h1 : strptimeDate (r.getD 1 "") with
    | none => rw [h0, h1] at hp; simp at hp
    | some d0 =>
      cases h2 : strptimeTime (r.getD 2 "") with
      | none => rw [h0, h1, h2] at hp; simp at hp
      | some s0 =>
        cases h3 : strptimeTime (r.getD 3 "") with
        | none => rw [h0, h1, h2, h3] at hp; simp at hp
        | some e0 =>
          rw [h0, h1, h2, h3] at hp
          simp only [Option.some.injEq, Prod.mk.injEq] at hp
          obtain ⟨rfl, rfl, rfl, rfl⟩ := hp
          have ht : tryParseRow loc r = ⟨some u0, some d0, some s0, some e0⟩ := by
            simp only [tryParseRow, h0, h1, h2, h3]
          simp only [get_dataStep, hlen, ne_eq, not_true_eq_false, if_false, ht]

theorem foldlM_wf (rows : List (List String)) :
    ∀ (t : Table) (loc : Locals), wellFormedRows rows = true →
      ∃ loc2, rows.foldlM get_dataStep (t, loc) = .ok (loadPure rows t, loc2) := by
  induction rows with
  | nil => exact fun t loc _ => ⟨loc, rfl⟩
  | cons r rest ih =>
    intro t loc h
    rw [wellFormedRows, List.all_cons, Bool.and_eq_true] at h
    obtain ⟨hr, hrest⟩ := h
    by_cases hlen : r.length = 4
    · have hsome : (parseRow4 r).isSome = true := by
        simpa [hlen] using hr
      obtain ⟨⟨u', d', s, e⟩, hp⟩ := Option.isSome_iff_exists.mp hsome
      have hstep := get_dataStep_parsed t loc r hlen u' d' s e hp
      have hcons : (r :: rest).foldlM get_dataStep (t, loc)
          = rest.foldlM get_dataStep
              (insertPresence t u' d' ⟨s, e⟩, ⟨some u', some d', some s, some e⟩) := by
        rw [List.foldlM_cons, hstep]
        rfl
      rw [hcons,
        show loadPure (r :: rest) t = loadPure rest (insertPresence t u' d' ⟨s, e⟩) from by
          simp [loadPure, List.foldl_cons, loadStep, hlen, hp]]
      exact ih _ _ hrest
    · have hstep : get_dataStep (t, loc) r = .ok (t, loc) := by
        simp [get_dataStep, hlen]
      have hcons : (r :: rest).foldlM get_dataStep (t, loc)
          = rest.foldlM get_dataStep (t, loc) := by
        rw [List.foldlM_cons, hstep]
        rfl
      rw [hcons,
        show loadPure (r :: rest) t = loadPure rest t from by
          simp [loadPure, List.foldl_cons, loadStep, hlen]]
      exact ih _ _ hrest

theorem nodupKeys_updateAssoc [DecidableEq κ] (k : κ) (v : α) (l : List (κ × α))
    (h : nodupKeys l = true) : nodupKeys (updateAssoc k v l) = true := by
  induction l with
  | nil => simp [updateAssoc, nodupKeys, lookupAssoc]
  | cons p rest ih =>
    obtain ⟨k₀, v₀⟩ := p
    rw [nodupKeys, Bool.and_eq_true] at h
    obtain ⟨hh, ht⟩ := h
    by_cases hk : k₀ = k
    · subst hk
      simp only [updateAssoc, if_pos rfl, nodupKeys, Bool.and_eq_true]
      exact ⟨hh, ht⟩
    · simp only [updateAssoc, if_neg hk, nodupKeys, Bool.and_eq_true]
      refine ⟨?_, ih ht⟩
      rw [lookupAssoc_updateAssoc_ne k k₀ v rest (fun hkk => hk hkk.symm)]
      exact hh

theorem all_updateAssoc [DecidableEq κ] {p : κ × α → Bool} (k : κ) (v : α)
    (l : List (κ × α)) (hl : l.all p = true) (hv : p (k, v) = true) :
    (updateAssoc k v l).all p = true := by
  induction l with
  | nil => simpa [updateAssoc]
  | cons q rest ih =>
    obtain ⟨k₀, v₀⟩ := q
    rw [List.all_cons, Bool.and_eq_true] at hl
    obtain ⟨hq, hrest⟩ := hl
    by_cases hk : k₀ = k
    · subst hk
      have hupd : updateAssoc k₀ v ((k₀, v₀) :: rest) = (k₀, v) :: rest := by
        simp [updateAssoc]
      rw [hupd, List.all_cons, Bool.and_eq_true]
      exact ⟨hv, hrest⟩
    · have hupd : updateAssoc k v ((k₀, v₀) :: rest) = (k₀, v₀) :: updateAssoc k v rest := by
        simp [updateAssoc, hk]
      rw [hupd, List.all_cons, Bool.and_eq_true]
      exact ⟨hq, ih hrest⟩

theorem lookupAssoc_all [DecidableEq κ] {p : κ × α → Bool} (l : List (κ × α))
    (h : l.all p = true) (k : κ) (v : α) (hk : lookupAssoc k l = some v) :
    p (k, v) = true := by
  induction l with
  | nil => simp [lookupAssoc] at hk
  | cons q rest ih =>
    obtain ⟨k₀, v₀⟩ := q
    rw [List.all_cons, Bool.and_eq_true] at h
    obtain ⟨hq, hrest⟩ := h
    by_cases hkk : k₀ = k
    · subst hkk
      rw [lookupAssoc, if_pos rfl] at hk
      cases hk
      exact hq
    · rw [lookupAssoc, if_neg hkk] at hk
      exact ih hrest hk

theorem tableNodup_insertPresence (t : Table) (u : ℤ) (d : PyDate) (e : Entry)
    (h : tableNodup t = true) : tableNodup (insertPresence t u d e) = true := by
  rw [tableNodup, Bool.and_eq_true] at h
  obtain ⟨houter, hinner⟩ := h
  unfold insertPresence tableNodup
  rw [Bool.and_eq_true]
  constructor
  · exact nodupKeys_updateAssoc _ _ _ houter
  · apply all_updateAssoc _ _ _ hinner
    apply nodupKeys_updateAssoc
    cases hu : lookupAssoc u t with
    | none => simp [nodupKeys]
    | some ut => simpa using lookupAssoc_all t hinner u ut hu

theorem tableNodup_loadPure (rows : List (List String)) (t : Table)
    (h : tableNodup t = true) : tableNodup (loadPure rows t) = true := by
  refine foldl_preserve (P := fun acc : Table => tableNodup acc = true) loadStep ?_ rows t h
  intro acc r hacc
  unfold loadStep
  by_cases hlen : r.length = 4
  · simp only [if_pos hlen]
    cases hp : parseRow4 r with
    | none => simpa [hp] using hacc
    | some quad =>
      obtain ⟨u, d, s, e⟩ := quad
      simp only [hp]
      exact tableNodup_insertPresence _ _ _ _ hacc
  · simpa [hlen] using hacc

/-- C7 (amended: for input files in which every 4-field row is well-formed):
the Loader succeeds, the table's outer and inner keys are unique, and the
entry stored at any (user_id, date) is exactly the `{start, end}` of the row
with that key appearing last in file order. -/
theorem get_data_last_row_wins (rows : List (List String)) (u : ℤ) (d : PyDate)
    (h : wellFormedRows rows = true) :
    ((get_data rows).toOption.map tableNodup) = some true
    ∧ ((get_data rows).toOption.bind fun t => (lookupAssoc u t).bind (lookupAssoc d))
        = lastMatch rows u d := by
  obtain ⟨loc2, hfold⟩ := foldlM_wf rows [] ⟨none, none, none, none⟩ h
  have hget : get_data rows = .ok (loadPure rows []) := by
    unfold get_data
    rw [hfold]
    rfl
  constructor
  · rw [hget]
    have hnd := tableNodup_loadPure rows [] rfl
    simp [Except.toOption, hnd]
  · rw [hget]
    simp only [Except.toOption, Option.some_bind]
    rw [loadPure_lookup rows [] u d]
    cases lastMatch rows u d <;> simp [lookupAssoc]

/-- Witness for C7 (amended): two well-formed rows sharing the key
(10, 2013-01-01); the loaded entry equals the later row's times. -/
theorem get_data_last_row_wins_witness :
    ((get_data [["10", "2013-01-01", "07:00:00", "15:00:00"],
        ["10", "2013-01-01", "08:00:00", "16:00:00"]]).toOption.map tableNodup)
      = some true
    ∧ ((get_data [["10", "2013-01-01", "07:00:00", "15:00:00"],
        ["10", "2013-01-01", "08:00:00", "16:00:00"]]).toOption.bind
          fun t => (lookupAssoc (10 : ℤ) t).bind (lookupAssoc (⟨2013, 1, 1⟩ : PyDate)))
        = lastMatch [["10", "2013-01-01", "07:00:00", "15:00:00"],
            ["10", "2013-01-01", "08:00:00", "16:00:00"]] 10 ⟨2013, 1, 1⟩ :=
  get_data_last_row_wins
    [["10", "2013-01-01", "07:00:00", "15:00:00"],
      ["10", "2013-01-01", "08:00:00", "16:00:00"]] 10 ⟨2013, 1, 1⟩ rfl

end PresenceAnalyzer
